import Mathlib

/-!
Verification of the schedviz trace-processing core against its source.

The development shallowly embeds:
* `traceparser/example/trace_to_proto_converter.go` — the converter's flag
  validation, format-file loop, and overflowed-CPU (stats) loop;
* the `sched` package's `Collection` (`NewCollection`, `buildSpansByPID`,
  `buildSpansByCPU`, `LookupCommand`, `GetRawEvents`, `NormalizationOffset`,
  `DroppedEventIDs`, `ExpandCPUs`).

Go `int64` values (timestamps, CPU ids, PIDs) are embedded as `Int`; the
sentinel values `UnknownTimestamp`, `UnknownCPU`, `UnknownPID` are embedded
as `Option.none`.  Code of the repository that is not under `src/`
(`traceparser.CPUOverflowed`, `trace.NewCollection`, `threadSpanSet`,
`cpuSpanSet.cpuTrees`, `stringTable.stringByID`, `PerCPUCollection`) is
modelled from the spec; each such definition carries a doc comment saying so.
-/

/-! ### Converter: stats files and the overflowed-CPU set (C1) -/

/-- The three counters read from a per-CPU stats file. -/
structure Stats where
  overrun : Nat
  commitOverrun : Nat
  droppedEvents : Nat
  deriving Repr, DecidableEq

/-- Result of `traceparser.CPUOverflowed`: the `bool` it returns and whether
its `error` return was non-nil. -/
structure OverflowResult where
  overflowed : Bool
  isError : Bool
  deriving Repr, DecidableEq

/-- Modelled from the spec: `traceparser.CPUOverflowed` is not under `src/`
(only its test `TestReadStats` and its caller are).  Per the spec's Clipping
Oracle and `TestReadStats`, a stats file that parses successfully (`some`)
returns a nil error and reports overflow iff any of `overrun`,
`commit overrun`, `dropped events` is non-zero; an unparseable stats file
(`none`) returns a non-nil error. -/
def CPUOverflowed : Option Stats → OverflowResult
  | none => ⟨false, true⟩
  | some st =>
    ⟨decide (st.overrun ≠ 0) || decide (st.commitOverrun ≠ 0) ||
      decide (st.droppedEvents ≠ 0), false⟩

/-- The converter's stats loop (`trace_to_proto_converter.go`, lines 105-116):
for the `i`-th stats file it computes `overflowed, err := CPUOverflowed(...)`
and adds CPU `i` to the overflowed set when `err != nil && overflowed`. -/
def converterOverflowedCPUs (statsFiles : List (Option Stats)) : List Int :=
  statsFiles.enum.foldl
    (fun acc p =>
      let r := CPUOverflowed p.2
      if r.isError && r.overflowed then acc ++ [(p.1 : Int)] else acc)
    []

/-! ### Converter: flag validation and the format-file loop (C5) -/

/-- Outcome of the converter's format-file reading loop. -/
inductive LoopResult where
  /-- Writing past the end of the pre-allocated `formatFiles` slice
  (Go runtime panic "index out of range"). -/
  | panicOOR : LoopResult
  /-- `ioutil.ReadFile` failed; the converter calls `log.Exitf`. -/
  | readError (p : String) : LoopResult
  | done (headerContent : String) (formatFiles : List String) : LoopResult
  deriving Repr, DecidableEq

/-- Go `strings.HasSuffix`, embedded structurally over the string's
character list (Lean's own byte-position `String.endsWith` is semantically
identical but does not evaluate inside the kernel). -/
def hasSuffix (s suffix : String) : Bool :=
  suffix.data.isSuffixOf s.data

/-- The loop over the filtered format-file paths
(`trace_to_proto_converter.go`, lines 62-78).  `cap` is the length of the
pre-allocated `formatFiles` slice (`len(filteredFormatFilePaths)-1`); `i`
is the running write index, bumped only for non-`header_page` files; a
`header_page` file replaces the header content instead. -/
def readLoop (readFile : String → Option String) (cap : Nat) :
    List String → Nat → String → List String → LoopResult
  | [], _, hdr, files => .done hdr files
  | p :: rest, i, hdr, files =>
    match readFile p with
    | none => .readError p
    | some buf =>
      if hasSuffix p "header_page" then readLoop readFile cap rest i buf files
      else if i < cap then readLoop readFile cap rest (i + 1) hdr (files.set i buf)
      else .panicOOR

/-- Outcome of the converter up to the point where `traceparser.New` is
called: either validation passed and parsing proceeds with a header and the
event format files, or the process exited non-zero. -/
inductive ConvResult where
  | proceed (headerContent : String) (formatFiles : List String) : ConvResult
  | exit (msg : String) : ConvResult
  deriving Repr, DecidableEq

/-- The converter's `main` through flag validation and format-file loading
(`trace_to_proto_converter.go`, lines 43-82).  `formatFilePaths` is the
filtered format-file path list of lines 47-53: `--format_files` split on
commas, entries trimmed, empty entries dropped (the split/trim/filter are
Go standard-library string operations applied upstream of all logic of
interest).  `readFile` models `ioutil.ReadFile` (`none` = read error).
All `log.Exit` calls and the out-of-range panic are collapsed into
`ConvResult.exit`. -/
def converterMain (formatFilePaths : List String) (outputPath : String)
    (readFile : String → Option String) : ConvResult :=
  let filtered := formatFilePaths
  if filtered.length < 2 then
    .exit "format_files is required. Must pass the path to at least one format file and the header_page format file."
  else if outputPath = "" then
    .exit "output_path is required."
  else
    match readLoop readFile (filtered.length - 1) filtered 0 ""
        (List.replicate (filtered.length - 1) "") with
    | .panicOOR => .exit "panic: index out of range"
    | .readError _ => .exit "Failed to read format file"
    | .done hdr files =>
      if hdr = "" then
        .exit "Must pass a path to the header_page format file using the format_files argument."
      else .proceed hdr files

/-! ### The sched package: events, transitions, spans -/

/-- A `trace.Event` restricted to the fields the `sched` package consults:
its trace-wide index, CPU, timestamp, name, and clipped flag. -/
structure TraceEvent where
  index : Nat
  cpu : Int
  timestamp : Int
  name : String
  clipped : Bool
  deriving Repr, DecidableEq

/-- A `threadTransition` restricted to the fields the embedded code
consults: the index of the event it came from, its timestamp (adjusted by
the normalization offset inside `buildSpansByPID`), and the PID and CPU it
constrains. -/
structure ThreadTransition where
  eventIndex : Nat
  timestamp : Int
  pid : Int
  cpu : Int
  deriving Repr, DecidableEq

/-- Span states (`UNKNOWN` never appears on finalized spans per the spec;
it is not needed by any claim, so it is not modelled). -/
inductive SpanState where
  | running
  | waiting
  | sleeping
  deriving Repr, DecidableEq

/-- A finalized `threadSpan`.  `UnknownCPU` / `UnknownPID` sentinels are
embedded as `none`. -/
structure ThreadSpan where
  pid : Option Int
  cpu : Option Int
  state : SpanState
  startTimestamp : Int
  endTimestamp : Int
  deriving Repr, DecidableEq

/-- What inference does with one transition.  Modelled from the spec's drop
policies (`threadSpanSet.addTransition` is not under `src/`): a transition
is kept, dropped (`DROP_SELF`, recorded in `droppedEventCountsByID`), or
kept together with a synthetic transition
(`INSERT_SYNTHETIC`, counted in `syntheticTransitionCount`). -/
inductive TransitionOutcome where
  | keep
  | dropSelf
  | insertSynthetic
  deriving Repr, DecidableEq

/-- Modelled from the spec: the `threadSpanSet` accumulator
(`newThreadSpanSet` / `addTransition` / `threadSpans` are not under `src/`).
It records the surviving transitions, the map from dropped event IDs to drop
counts (as an association list), and the synthetic-transition count. -/
structure ThreadSpanSet where
  transitions : List ThreadTransition
  droppedEventCountsByID : List (Nat × Nat)
  syntheticTransitionCount : Nat
  deriving Repr, DecidableEq

/-- A fresh `threadSpanSet` (`newThreadSpanSet`). -/
def newThreadSpanSet : ThreadSpanSet := ⟨[], [], 0⟩

/-- Increment the drop count of event `k` in an association list, appending
`(k, 1)` if `k` is not yet a key (Go `map[int]int` increment). -/
def bumpCount : List (Nat × Nat) → Nat → List (Nat × Nat)
  | [], k => [(k, 1)]
  | (k', c) :: rest, k =>
    if k' = k then (k', c + 1) :: rest else (k', c) :: bumpCount rest k

/-- Modelled from the spec: `threadSpanSet.addTransition`.  The conflict
detection itself lives in code not under `src/`, so its decision is
abstracted as the `oracle` parameter; the bookkeeping for each decision
follows the spec's drop policies. -/
def addTransition (oracle : ThreadTransition → TransitionOutcome)
    (tss : ThreadSpanSet) (tt : ThreadTransition) : ThreadSpanSet :=
  match oracle tt with
  | .keep => { tss with transitions := tss.transitions ++ [tt] }
  | .dropSelf =>
    { tss with droppedEventCountsByID := bumpCount tss.droppedEventCountsByID tt.eventIndex }
  | .insertSynthetic =>
    { tss with transitions := tss.transitions ++ [tt],
               syntheticTransitionCount := tss.syntheticTransitionCount + 1 }

/-! ### buildSpansByPID (collection construction, first stage) -/

/-- The mutable state threaded through `buildSpansByPID`'s event loop:
`c.normalizationOffset` (`none` = the `UnknownTimestamp` sentinel it is
initialized to), `c.startTimestamp`, `c.endTimestamp`, `c.ThreadTransitions`
(assigned anew on every usable event), and the local `ts` (`none` = Go
`nil`). -/
structure BuildState where
  normalizationOffset : Option Int
  startTimestamp : Int
  endTimestamp : Int
  lastTransitions : List ThreadTransition
  ts : Option ThreadSpanSet
  deriving Repr, DecidableEq

/-- The state on entry to the loop: offset `Unknown`, timestamps at their
zero values, no transitions, `ts = nil`. -/
def initialBuildState : BuildState := ⟨none, 0, 0, [], none⟩

/-- One iteration of the event loop in `buildSpansByPID`
(`collection.go` as embedded, lines 255-295): skip clipped events, skip
events yielding no transitions, set the normalization offset and start
timestamp on the first usable event, update the end timestamp, store the
(offset-adjusted) transitions, and feed them to `addTransition`.
The event loader is modelled as the total function `loader` (loader errors
and `addTransition` errors abort construction in Go; the spec treats
inference conflicts as never surfacing, so they are modelled as resolved
by `oracle`). -/
def buildStep (normalizeTimestamps : Bool)
    (loader : TraceEvent → List ThreadTransition)
    (oracle : ThreadTransition → TransitionOutcome)
    (s : BuildState) (ev : TraceEvent) : BuildState :=
  if ev.clipped then s
  else
    let tts := loader ev
    if tts.isEmpty then s
    else
      let s1 :=
        match s.normalizationOffset with
        | none =>
          let off := if normalizeTimestamps then ev.timestamp else 0
          { s with normalizationOffset := some off, startTimestamp := ev.timestamp - off }
        | some _ => s
      let off := s1.normalizationOffset.getD 0
      let adjusted := tts.map (fun tt => { tt with timestamp := tt.timestamp - off })
      let tss := adjusted.foldl (addTransition oracle) (s1.ts.getD newThreadSpanSet)
      { s1 with endTimestamp := ev.timestamp - off,
                lastTransitions := adjusted,
                ts := some tss }

/-- The whole event loop of `buildSpansByPID` over the event set. -/
def buildSpansByPIDLoop (normalizeTimestamps : Bool)
    (loader : TraceEvent → List ThreadTransition)
    (oracle : ThreadTransition → TransitionOutcome)
    (events : List TraceEvent) : BuildState :=
  events.foldl (buildStep normalizeTimestamps loader oracle) initialBuildState

/-- An event is usable iff it is not clipped and its loader yields at least
one transition; only usable events affect `buildSpansByPID`'s state. -/
def usableEvent (loader : TraceEvent → List ThreadTransition) (ev : TraceEvent) : Bool :=
  !ev.clipped && !(loader ev).isEmpty

/-! ### buildSpansByCPU (collection construction, second stage) -/

/-- The accumulator of `buildSpansByCPU`: the `c.pids` and `c.cpus` caches
(Go `map[...]struct\x7b\x7d` sets, embedded as duplicate-free lists) and the
spans handed to `cpuSpanSet.addSpan`. -/
structure CPUSpanSet where
  pids : List Int
  cpus : List Int
  spans : List ThreadSpan
  deriving Repr, DecidableEq

/-- Set insertion for the Go map-backed caches: add `x` if absent. -/
def insertNew (x : Int) (l : List Int) : List Int :=
  if x ∈ l then l else l ++ [x]

/-- One iteration of `buildSpansByCPU`'s span loop (`collection.go` as
embedded, lines 309-320): spans whose CPU or PID is `Unknown` are skipped;
otherwise the PID and CPU are cached and the span is added to the
`cpuSpanSet`. -/
def cpuStep (acc : CPUSpanSet) (span : ThreadSpan) : CPUSpanSet :=
  match span.cpu, span.pid with
  | some cp, some pd =>
    { pids := insertNew pd acc.pids
      cpus := insertNew cp acc.cpus
      spans := acc.spans ++ [span] }
  | _, _ => acc

/-- `buildSpansByCPU` over the per-PID spans. -/
def buildSpansByCPU (spansByPID : List ThreadSpan) : CPUSpanSet :=
  spansByPID.foldl cpuStep ⟨[], [], []⟩

/-! ### The Collection facade -/

/-- `sched.Collection` restricted to the fields the claims consult.  The
per-CPU running/sleeping/waiting indexes produced by `cpuSpanSet.cpuTrees`
(not under `src/`) are modelled by the flat list `addedSpans` of the spans
handed to `addSpan`, together with the projection functions
`runningSpansOn` / `sleepingSpansOn` / `waitingSpansOn` below. -/
structure Collection where
  normalizationOffset : Int
  startTimestamp : Int
  endTimestamp : Int
  spansByPID : List ThreadSpan
  droppedEventCountsByID : List (Nat × Nat)
  syntheticTransitionCount : Nat
  /-- `c.TraceCollection`: the events of the event set, by index. -/
  events : List TraceEvent
  /-- `c.stringTable`: the interned strings, by string ID. -/
  stringTable : List String
  cpus : List Int
  pids : List Int
  addedSpans : List ThreadSpan
  deriving Repr, DecidableEq

/-- `Collection.NormalizationOffset` (`collection.go` as embedded, lines
405-407). -/
def Collection.NormalizationOffset (c : Collection) : Int :=
  c.normalizationOffset

/-- Assemble the `Collection` returned by `NewCollection` once
`buildSpansByPID`'s loop finished with a non-nil `ts`.  `spanizer` models
`threadSpanSet.threadSpans` (not under `src/`, modelled as total: the spec
says inference conflicts never surface); `strings` models the string bank
filled during event loading.  The final `normalizationOffset` is always set
when `ts` is non-nil (proved below), so `getD 0` only formalizes totality. -/
def finishCollection (strings : List String) (events : List TraceEvent)
    (spanizer : List ThreadTransition → Int → List ThreadSpan)
    (final : BuildState) (tss : ThreadSpanSet) : Collection :=
  let spans := spanizer tss.transitions final.endTimestamp
  let cr := buildSpansByCPU spans
  { normalizationOffset := final.normalizationOffset.getD 0
    startTimestamp := final.startTimestamp
    endTimestamp := final.endTimestamp
    spansByPID := spans
    droppedEventCountsByID := tss.droppedEventCountsByID
    syntheticTransitionCount := tss.syntheticTransitionCount
    events := events
    stringTable := strings
    cpus := cr.cpus
    pids := cr.pids
    addedSpans := cr.spans }

/-- `sched.NewCollection` (`collection.go` as embedded, lines 204-237,
296-302): run `buildSpansByPID`'s loop; if no usable event was seen
(`ts == nil`) fail with the empty-collection error, else finalize the spans
and build the per-CPU caches and indexes via `buildSpansByCPU`. -/
def NewCollection (normalizeTimestamps : Bool)
    (loader : TraceEvent → List ThreadTransition)
    (oracle : ThreadTransition → TransitionOutcome)
    (spanizer : List ThreadTransition → Int → List ThreadSpan)
    (strings : List String)
    (events : List TraceEvent) : Except String Collection :=
  let final := buildSpansByPIDLoop normalizeTimestamps loader oracle events
  match final.ts with
  | none => .error "no usable events in collection"
  | some tss => .ok (finishCollection strings events spanizer final tss)

/-- Modelled from the spec: per-CPU running index (`runningSpansByCPU`,
filled by `cpuSpanSet.cpuTrees`, which is not under `src/`): the added spans
on that CPU in state `RUNNING`. -/
def runningSpansOn (c : Collection) (cpu : Int) : List ThreadSpan :=
  c.addedSpans.filter (fun s => s.cpu == some cpu && s.state == SpanState.running)

/-- Modelled from the spec: per-CPU sleeping interval tree
(`sleepingSpansByCPU`), as the set of added spans it indexes. -/
def sleepingSpansOn (c : Collection) (cpu : Int) : List ThreadSpan :=
  c.addedSpans.filter (fun s => s.cpu == some cpu && s.state == SpanState.sleeping)

/-- Modelled from the spec: per-CPU waiting interval tree
(`waitingSpansByCPU`), as the set of added spans it indexes. -/
def waitingSpansOn (c : Collection) (cpu : Int) : List ThreadSpan :=
  c.addedSpans.filter (fun s => s.cpu == some cpu && s.state == SpanState.waiting)

/-! ### Query surface -/

/-- Modelled from the spec: `stringTable.stringByID` (not under `src/`)
returns the interned string for an ID or fails. -/
def stringByID (table : List String) (id : Nat) : Except String String :=
  match table.get? id with
  | some s => .ok s
  | none => .error "unknown string id"

/-- The reserved string ID (`UnknownCommand`); the spec reserves ID 0. -/
def UnknownCommand : Nat := 0

/-- `Collection.LookupCommand` (`collection.go` as embedded, lines
328-337). -/
def LookupCommand (c : Collection) (command : Nat) : Except String String :=
  if command = UnknownCommand then .ok "<unknown>"
  else
    match stringByID c.stringTable command with
    | .ok commStr => .ok commStr
    | .error _ => .error ("failed to find command for id " ++ toString command)

/-- `Collection.GetRawEvents` (`collection.go` as embedded, lines 362-381)
with no filters.  `PerCPUCollection.EventIndices` is not under `src/`;
modelled from the spec ("raw-event re-emission", clipped events and events
without transitions still flow through) as every event index in order.  Each
event's timestamp is adjusted by the normalization offset. -/
def GetRawEvents (c : Collection) : List TraceEvent :=
  c.events.map (fun ev => { ev with timestamp := ev.timestamp - c.normalizationOffset })

/-- `Collection.DroppedEventIDs` (`collection.go` as embedded, lines
429-438): the keys of `droppedEventCountsByID` (a Go map, iterated in
unspecified order), sorted ascending. -/
def DroppedEventIDs (c : Collection) : List Nat :=
  List.insertionSort (· ≤ ·) (c.droppedEventCountsByID.map Prod.fst)

/-- `Collection.CPUs` with no filters (`collection.go` as embedded, lines
396-399); `buildFilter` with no filters is modelled from the spec as the
cached CPU set. -/
def Collection.CPUs (c : Collection) : List Int :=
  c.cpus

/-- `Collection.ExpandCPUs` (`collection.go` as embedded, lines 450-464):
a non-empty argument is returned unchanged; an empty one is replaced by all
CPUs observed in the collection, sorted increasing. -/
def ExpandCPUs (c : Collection) (cpus : List Int) : List Int :=
  if cpus.isEmpty then List.insertionSort (· ≤ ·) c.CPUs else cpus

/-- A span is projected to the CPU indexes iff both its CPU and PID are
known. -/
def spanKnown (s : ThreadSpan) : Bool := s.cpu.isSome && s.pid.isSome

/-- The keys of a dropped-event count map. -/
def droppedKeys (tss : ThreadSpanSet) : List Nat :=
  tss.droppedEventCountsByID.map Prod.fst

/-- The keys of the dropped-event count map of an optional
`ThreadSpanSet` (`nil` has none). -/
def droppedKeysOpt : Option ThreadSpanSet → List Nat
  | none => []
  | some tss => droppedKeys tss

/-- The number of paths in a list that do not end in `header_page` — the
number of writes into the converter's pre-allocated `formatFiles` slice. -/
def nonHeaderCount (paths : List String) : Nat :=
  (paths.filter (fun p => !hasSuffix p "header_page")).length

/-! ### Concrete example instances (used by witnesses and counterexamples) -/

/-- An example event loader in the shape of the sched loaders: a
`sched_switch` event yields one transition (carrying the event's index,
timestamp and CPU), any other name yields none. -/
def exLoader (ev : TraceEvent) : List ThreadTransition :=
  if ev.name = "sched_switch" then [⟨ev.index, ev.timestamp, 100, ev.cpu⟩] else []

/-- An example conflict oracle that keeps every transition. -/
def exKeepOracle : ThreadTransition → TransitionOutcome := fun _ => .keep

/-- An example conflict oracle that drops every transition (`DROP_SELF`). -/
def exDropOracle : ThreadTransition → TransitionOutcome := fun _ => .dropSelf

/-- An example span finalizer: one running span per surviving transition. -/
def exSpanizer : List ThreadTransition → Int → List ThreadSpan :=
  fun tts endTs => tts.map (fun tt => ⟨some tt.pid, some tt.cpu, .running, tt.timestamp, endTs⟩)

/-- An example span finalizer whose first span has an unknown CPU, as
happens for a PID whose CPU never became known. -/
def exPartialSpanizer : List ThreadTransition → Int → List ThreadSpan :=
  fun _ endTs => [⟨some 7, none, .waiting, 0, endTs⟩, ⟨some 8, some 2, .running, 0, endTs⟩]

/-- Two example events: one whose name yields no transitions, then a usable
`sched_switch` event with a later timestamp. -/
def exEvents : List TraceEvent :=
  [⟨0, 0, 5, "mystery", false⟩, ⟨1, 0, 10, "sched_switch", false⟩]

/-- An example clipped event. -/
def exClippedEvent : TraceEvent := ⟨0, 2, 3, "sched_switch", true⟩

/-- An example usable event. -/
def exSwitchEvent : TraceEvent := ⟨1, 0, 10, "sched_switch", false⟩

/-- The all-zero collection, used only as the default of `Option.getD`
when naming a concretely constructed collection. -/
def emptyCollection : Collection := ⟨0, 0, 0, [], [], 0, [], [], [], [], []⟩

/-- The collection built from `exEvents` with normalization on. -/
def exCollection : Collection :=
  (NewCollection true exLoader exKeepOracle exSpanizer [] exEvents).toOption.getD
    emptyCollection

/-- The collection built from `exEvents` with normalization off. -/
def exCollectionRaw : Collection :=
  (NewCollection false exLoader exKeepOracle exSpanizer [] exEvents).toOption.getD
    emptyCollection

/-- The collection built from `exEvents` with a span finalizer that leaves
one span's CPU unknown. -/
def exCollectionPartial : Collection :=
  (NewCollection true exLoader exKeepOracle exPartialSpanizer [] exEvents).toOption.getD
    emptyCollection

/-- The collection built from `exEvents` under the always-drop conflict
oracle, so its dropped-event map is non-empty. -/
def exCollectionDropped : Collection :=
  (NewCollection false exLoader exDropOracle exSpanizer [] exEvents).toOption.getD
    emptyCollection

/-- A collection carrying a three-entry string table. -/
def exLookupCollection : Collection :=
  ⟨0, 0, 0, [], [], 0, [], ["zero", "one", "two"], [], [], []⟩

/-! ### Lemmas about buildSpansByPID's loop -/

theorem buildStep_clipped (n : Bool) (loader : TraceEvent → List ThreadTransition)
    (oracle : ThreadTransition → TransitionOutcome) (s : BuildState) (ev : TraceEvent)
    (h : ev.clipped = true) : buildStep n loader oracle s ev = s := by
  simp [buildStep, h]

theorem buildStep_no_transitions (n : Bool) (loader : TraceEvent → List ThreadTransition)
    (oracle : ThreadTransition → TransitionOutcome) (s : BuildState) (ev : TraceEvent)
    (h : loader ev = []) : buildStep n loader oracle s ev = s := by
  simp [buildStep, h]

theorem buildStep_not_usable (n : Bool) (loader : TraceEvent → List ThreadTransition)
    (oracle : ThreadTransition → TransitionOutcome) (s : BuildState) (ev : TraceEvent)
    (h : usableEvent loader ev = false) : buildStep n loader oracle s ev = s := by
  by_cases hc : ev.clipped = true
  · exact buildStep_clipped n loader oracle s ev hc
  · have hc' : ev.clipped = false := by simpa using hc
    have he : (loader ev).isEmpty = true := by
      simpa [usableEvent, hc'] using h
    exact buildStep_no_transitions n loader oracle s ev (List.isEmpty_iff.mp he)

theorem usableEvent_iff (loader : TraceEvent → List ThreadTransition) (ev : TraceEvent) :
    usableEvent loader ev = true ↔ ev.clipped = false ∧ loader ev ≠ [] := by
  simp [usableEvent, List.isEmpty_iff, Bool.and_eq_true, Bool.not_eq_true']

theorem buildStep_offset_some (n : Bool) (loader : TraceEvent → List ThreadTransition)
    (oracle : ThreadTransition → TransitionOutcome) (s : BuildState) (ev : TraceEvent)
    (x : Int) (h : s.normalizationOffset = some x) :
    (buildStep n loader oracle s ev).normalizationOffset = some x := by
  by_cases hc : ev.clipped = true
  · rw [buildStep_clipped n loader oracle s ev hc]; exact h
  · have hc' : ev.clipped = false := by simpa using hc
    by_cases he : (loader ev).isEmpty = true
    · rw [buildStep_no_transitions n loader oracle s ev (List.isEmpty_iff.mp he)]; exact h
    · simp [buildStep, hc', he, h]

theorem buildStep_ts_some (n : Bool) (loader : TraceEvent → List ThreadTransition)
    (oracle : ThreadTransition → TransitionOutcome) (s : BuildState) (ev : TraceEvent)
    (h : s.ts.isSome = true) : (buildStep n loader oracle s ev).ts.isSome = true := by
  by_cases hc : ev.clipped = true
  · rw [buildStep_clipped n loader oracle s ev hc]; exact h
  · have hc' : ev.clipped = false := by simpa using hc
    by_cases he : (loader ev).isEmpty = true
    · rw [buildStep_no_transitions n loader oracle s ev (List.isEmpty_iff.mp he)]; exact h
    · cases hoff : s.normalizationOffset <;> simp [buildStep, hc', he, hoff]

theorem buildStep_usable_unset (n : Bool) (loader : TraceEvent → List ThreadTransition)
    (oracle : ThreadTransition → TransitionOutcome) (s : BuildState) (ev : TraceEvent)
    (hoff : s.normalizationOffset = none) (hu : usableEvent loader ev = true) :
    (buildStep n loader oracle s ev).normalizationOffset
        = some (if n then ev.timestamp else 0)
      ∧ (buildStep n loader oracle s ev).ts.isSome = true := by
  obtain ⟨hc, hne⟩ := (usableEvent_iff loader ev).mp hu
  have he : (loader ev).isEmpty = false := by
    simpa [List.isEmpty_iff] using hne
  constructor <;> simp [buildStep, hc, he, hoff]

theorem foldl_buildStep_offset_some (n : Bool) (loader : TraceEvent → List ThreadTransition)
    (oracle : ThreadTransition → TransitionOutcome) (events : List TraceEvent) :
    ∀ (s : BuildState) (x : Int), s.normalizationOffset = some x →
      (events.foldl (buildStep n loader oracle) s).normalizationOffset = some x := by
  induction events with
  | nil => intro s x h; exact h
  | cons ev rest ih =>
    intro s x h
    exact ih _ x (buildStep_offset_some n loader oracle s ev x h)

theorem foldl_buildStep_ts_some (n : Bool) (loader : TraceEvent → List ThreadTransition)
    (oracle : ThreadTransition → TransitionOutcome) (events : List TraceEvent) :
    ∀ (s : BuildState), s.ts.isSome = true →
      (events.foldl (buildStep n loader oracle) s).ts.isSome = true := by
  induction events with
  | nil => intro s h; exact h
  | cons ev rest ih =>
    intro s h
    exact ih _ (buildStep_ts_some n loader oracle s ev h)

theorem foldl_buildStep_unset (n : Bool) (loader : TraceEvent → List ThreadTransition)
    (oracle : ThreadTransition → TransitionOutcome) (events : List TraceEvent) :
    ∀ (s : BuildState), s.normalizationOffset = none → s.ts = none →
      (events.foldl (buildStep n loader oracle) s).normalizationOffset
          = (events.find? (usableEvent loader)).map (fun ev => if n then ev.timestamp else 0)
        ∧ (events.foldl (buildStep n loader oracle) s).ts.isSome
          = (events.find? (usableEvent loader)).isSome := by
  induction events with
  | nil => intro s h1 h2; simp [h1, h2]
  | cons ev rest ih =>
    intro s h1 h2
    by_cases hu : usableEvent loader ev = true
    · rw [List.foldl_cons, List.find?_cons_of_pos rest hu]
      obtain ⟨ho, ht⟩ := buildStep_usable_unset n loader oracle s ev h1 hu
      refine ⟨?_, ?_⟩
      · rw [foldl_buildStep_offset_some n loader oracle rest _ _ ho]
        rfl
      · rw [foldl_buildStep_ts_some n loader oracle rest _ ht]
        rfl
    · have hu' : usableEvent loader ev = false := by simpa using hu
      rw [List.foldl_cons, buildStep_not_usable n loader oracle s ev hu',
        List.find?_cons_of_neg rest (by simp [hu'])]
      exact ih s h1 h2

theorem buildSpansByPIDLoop_offset (n : Bool) (loader : TraceEvent → List ThreadTransition)
    (oracle : ThreadTransition → TransitionOutcome) (events : List TraceEvent) :
    (buildSpansByPIDLoop n loader oracle events).normalizationOffset
        = (events.find? (usableEvent loader)).map (fun ev => if n then ev.timestamp else 0)
      ∧ (buildSpansByPIDLoop n loader oracle events).ts.isSome
        = (events.find? (usableEvent loader)).isSome :=
  foldl_buildStep_unset n loader oracle events initialBuildState rfl rfl

theorem newCollection_ok_inv (n : Bool) (loader : TraceEvent → List ThreadTransition)
    (oracle : ThreadTransition → TransitionOutcome)
    (spanizer : List ThreadTransition → Int → List ThreadSpan)
    (strings : List String) (events : List TraceEvent) (c : Collection)
    (hok : NewCollection n loader oracle spanizer strings events = .ok c) :
    ∃ tss, (buildSpansByPIDLoop n loader oracle events).ts = some tss
      ∧ c = finishCollection strings events spanizer
          (buildSpansByPIDLoop n loader oracle events) tss := by
  simp only [NewCollection] at hok
  cases h : (buildSpansByPIDLoop n loader oracle events).ts with
  | none => rw [h] at hok; cases hok
  | some tss =>
    rw [h] at hok
    simp only [Except.ok.injEq] at hok
    exact ⟨tss, rfl, hok.symm⟩

theorem newCollection_offset (n : Bool) (loader : TraceEvent → List ThreadTransition)
    (oracle : ThreadTransition → TransitionOutcome)
    (spanizer : List ThreadTransition → Int → List ThreadSpan)
    (strings : List String) (events : List TraceEvent) (c : Collection)
    (hok : NewCollection n loader oracle spanizer strings events = .ok c) :
    ∃ ev, events.find? (usableEvent loader) = some ev
      ∧ c.normalizationOffset = (if n then ev.timestamp else 0)
      ∧ c.events = events := by
  obtain ⟨tss, hts, hc⟩ := newCollection_ok_inv n loader oracle spanizer strings events c hok
  obtain ⟨hoff, hsome⟩ := buildSpansByPIDLoop_offset n loader oracle events
  rw [hts] at hsome
  cases hfind : events.find? (usableEvent loader) with
  | none => rw [hfind] at hsome; simp at hsome
  | some ev =>
    refine ⟨ev, rfl, ?_, ?_⟩
    · rw [hc]
      simp only [finishCollection]
      rw [hoff, hfind]
      rfl
    · rw [hc]
      simp only [finishCollection]

/-- C2: `NewCollection` fails with the empty-collection error exactly when
no usable event exists: it returns a collection iff some event is both
unclipped and transition-producing; in particular it fails on an empty
event set and on an event set whose events are all clipped.  (Failures of
the event loader, of `addTransition`, and of `threadSpans` are modelled as
absent, following the spec's policy that inference conflicts never
surface.) -/
theorem newCollection_ok_iff_usable (n : Bool) (loader : TraceEvent → List ThreadTransition)
    (oracle : ThreadTransition → TransitionOutcome)
    (spanizer : List ThreadTransition → Int → List ThreadSpan)
    (strings : List String) (events : List TraceEvent) :
    ((∃ c, NewCollection n loader oracle spanizer strings events = .ok c)
        ↔ ∃ ev ∈ events, ev.clipped = false ∧ loader ev ≠ [])
      ∧ NewCollection n loader oracle spanizer strings []
          = .error "no usable events in collection"
      ∧ ((∀ ev ∈ events, ev.clipped = true)
          → NewCollection n loader oracle spanizer strings events
              = .error "no usable events in collection") := by
  have hkey : ∀ (evs : List TraceEvent),
      (∃ c, NewCollection n loader oracle spanizer strings evs = .ok c)
        ↔ ∃ ev ∈ evs, ev.clipped = false ∧ loader ev ≠ [] := by
    intro evs
    constructor
    · rintro ⟨c, hok⟩
      obtain ⟨ev, hfind, -, -⟩ :=
        newCollection_offset n loader oracle spanizer strings evs c hok
      exact ⟨ev, List.mem_of_find?_eq_some hfind,
        (usableEvent_iff loader ev).mp (List.find?_some hfind)⟩
    · intro hex
      have hsome : ((evs.find? (usableEvent loader)).isSome : Prop) := by
        rw [List.find?_isSome]
        obtain ⟨ev, hmem, h1, h2⟩ := hex
        exact ⟨ev, hmem, (usableEvent_iff loader ev).mpr ⟨h1, h2⟩⟩
      obtain ⟨-, hts⟩ := buildSpansByPIDLoop_offset n loader oracle evs
      rw [hsome] at hts
      simp only [NewCollection]
      cases h : (buildSpansByPIDLoop n loader oracle evs).ts with
      | none => rw [h] at hts; simp at hts
      | some tss =>
        exact ⟨finishCollection strings evs spanizer
          (buildSpansByPIDLoop n loader oracle evs) tss, rfl⟩
  have herr : ∀ (evs : List TraceEvent),
      (¬∃ ev ∈ evs, ev.clipped = false ∧ loader ev ≠ []) →
      NewCollection n loader oracle spanizer strings evs
        = .error "no usable events in collection" := by
    intro evs hno
    have hnone : evs.find? (usableEvent loader) = none := by
      cases hfind : evs.find? (usableEvent loader) with
      | none => rfl
      | some ev =>
        exact absurd ⟨ev, List.mem_of_find?_eq_some hfind,
          (usableEvent_iff loader ev).mp (List.find?_some hfind)⟩ hno
    obtain ⟨-, hts⟩ := buildSpansByPIDLoop_offset n loader oracle evs
    rw [hnone] at hts
    simp only [NewCollection]
    cases h : (buildSpansByPIDLoop n loader oracle evs).ts with
    | none => rfl
    | some tss => rw [h] at hts; simp at hts
  refine ⟨hkey events, herr [] (by simp), fun hall => herr events ?_⟩
  rintro ⟨ev, hmem, hcl, -⟩
  rw [hall ev hmem] at hcl
  cases hcl

/-- C3 (amended): `NormalizationOffset()` is 0 when normalization is
disabled and otherwise equals the absolute timestamp of the first
non-clipped, transition-producing event; when normalization is on, that
event is emitted by `GetRawEvents` with timestamp 0.  (Events contributing
no transitions may precede it and be emitted with negative timestamps; see
the counterexample.) -/
theorem normalizationOffset_spec (n : Bool) (loader : TraceEvent → List ThreadTransition)
    (oracle : ThreadTransition → TransitionOutcome)
    (spanizer : List ThreadTransition → Int → List ThreadSpan)
    (strings : List String) (events : List TraceEvent) (c : Collection)
    (hok : NewCollection n loader oracle spanizer strings events = .ok c) :
    (n = false → c.NormalizationOffset = 0)
      ∧ (n = true → ∃ ev, events.find? (usableEvent loader) = some ev
          ∧ c.NormalizationOffset = ev.timestamp
          ∧ ∃ i, events.get? i = some ev
              ∧ (GetRawEvents c).get? i = some { ev with timestamp := 0 }) := by
  obtain ⟨ev, hfind, hoff, hevs⟩ :=
    newCollection_offset n loader oracle spanizer strings events c hok
  constructor
  · intro hn
    rw [hn] at hoff
    simpa [Collection.NormalizationOffset] using hoff
  · intro hn
    rw [hn] at hoff
    simp only [if_true] at hoff
    refine ⟨ev, hfind, by simpa [Collection.NormalizationOffset] using hoff, ?_⟩
    obtain ⟨i, hi⟩ := List.get?_of_mem (List.mem_of_find?_eq_some hfind)
    refine ⟨i, hi, ?_⟩
    unfold GetRawEvents
    rw [List.get?_map, hevs, hi, hoff]
    simp

/-- C6: every event returned by `GetRawEvents` carries a normalized
timestamp — its exposed timestamp is the stored timestamp minus the
collection's normalization offset — and that offset is 0 when normalization
is disabled, leaving timestamps raw. -/
theorem getRawEvents_normalized (n : Bool) (loader : TraceEvent → List ThreadTransition)
    (oracle : ThreadTransition → TransitionOutcome)
    (spanizer : List ThreadTransition → Int → List ThreadSpan)
    (strings : List String) (events : List TraceEvent) (c : Collection)
    (hok : NewCollection n loader oracle spanizer strings events = .ok c) :
    (∀ i ev, c.events.get? i = some ev →
        (GetRawEvents c).get? i
          = some { ev with timestamp := ev.timestamp - c.NormalizationOffset })
      ∧ (n = false → c.NormalizationOffset = 0) := by
  constructor
  · intro i ev hi
    unfold GetRawEvents
    rw [List.get?_map, hi]
    rfl
  · intro hn
    obtain ⟨ev, hfind, hoff, -⟩ :=
      newCollection_offset n loader oracle spanizer strings events c hok
    rw [hn] at hoff
    simpa [Collection.NormalizationOffset] using hoff

/-- C4: a clipped event is skipped entirely by span inference — the loop
state of `buildSpansByPID` (normalization offset, start and end timestamps,
stored transitions, dropped-event counts, synthetic-transition count) is
exactly as if the event were absent — yet the event still flows through
`GetRawEvents` as a raw event. -/
theorem clipped_event_skipped (n : Bool) (loader : TraceEvent → List ThreadTransition)
    (oracle : ThreadTransition → TransitionOutcome)
    (spanizer : List ThreadTransition → Int → List ThreadSpan)
    (strings : List String) (pre post : List TraceEvent) (ev : TraceEvent)
    (h : ev.clipped = true) :
    buildSpansByPIDLoop n loader oracle (pre ++ ev :: post)
        = buildSpansByPIDLoop n loader oracle (pre ++ post)
      ∧ ∀ c, NewCollection n loader oracle spanizer strings (pre ++ ev :: post) = .ok c →
          (GetRawEvents c).get? pre.length
            = some { ev with timestamp := ev.timestamp - c.NormalizationOffset } := by
  constructor
  · unfold buildSpansByPIDLoop
    rw [List.foldl_append, List.foldl_append, List.foldl_cons,
      buildStep_clipped n loader oracle _ ev h]
  · intro c hok
    obtain ⟨tss, -, hc⟩ :=
      newCollection_ok_inv n loader oracle spanizer strings _ c hok
    have hevs : c.events = pre ++ ev :: post := by
      rw [hc]; simp only [finishCollection]
    unfold GetRawEvents
    rw [List.get?_map, hevs, List.get?_append_right (Nat.le_refl pre.length)]
    simp [Collection.NormalizationOffset]

/-- C1: the converter's stats loop never marks a CPU whose stats file
parses successfully, whatever its counters, because it requires
`err != nil && overflowed`: with `overrun: 1` (and with each of the other
counters non-zero) `CPUOverflowed` reports overflow with a nil error, yet
the overflowed-CPU set stays empty — contradicting the spec's Clipping
Oracle and the contract exercised by `TestReadStats`. -/
theorem converter_overflow_check_inverted :
    CPUOverflowed (some ⟨1, 0, 0⟩) = ⟨true, false⟩
      ∧ converterOverflowedCPUs [some ⟨1, 0, 0⟩] = []
      ∧ converterOverflowedCPUs [some ⟨1, 0, 0⟩, some ⟨0, 1, 0⟩, some ⟨0, 0, 1⟩] = [] := by
  decide

/-- C3 counterexample: a collection built with normalization on from an
unclipped transition-free event at timestamp 5 followed by a usable
`sched_switch` at timestamp 10 is constructed successfully, and its query
surface emits raw-event timestamps `[-5, 0]` — the smallest emitted
timestamp is negative, not 0. -/
theorem smallest_emitted_timestamp_not_zero :
    ((NewCollection true exLoader exKeepOracle exSpanizer [] exEvents).toOption.map
        (fun c => (GetRawEvents c).map TraceEvent.timestamp)) = some [-5, 0]
      ∧ ¬((-5 : Int) = 0) := by
  constructor
  · rfl
  · decide

/-! ### Lemmas about buildSpansByCPU -/

theorem insertNew_mem (x y : Int) (l : List Int) :
    x ∈ insertNew y l ↔ x = y ∨ x ∈ l := by
  unfold insertNew
  split
  · constructor
    · exact Or.inr
    · rintro (rfl | hx)
      · assumption
      · assumption
  · simp [or_comm]

theorem insertNew_nodup (y : Int) (l : List Int) (h : l.Nodup) :
    (insertNew y l).Nodup := by
  unfold insertNew
  split
  · exact h
  · simp_all [List.nodup_append]

theorem cpuStep_known (acc : CPUSpanSet) (s : ThreadSpan) (h : spanKnown s = true) :
    ∃ cp pd, s.cpu = some cp ∧ s.pid = some pd
      ∧ cpuStep acc s = ⟨insertNew pd acc.pids, insertNew cp acc.cpus, acc.spans ++ [s]⟩ := by
  obtain ⟨h1, h2⟩ := Bool.and_eq_true_iff.mp h
  obtain ⟨cp, hcp⟩ := Option.isSome_iff_exists.mp h1
  obtain ⟨pd, hpd⟩ := Option.isSome_iff_exists.mp h2
  exact ⟨cp, pd, hcp, hpd, by simp [cpuStep, hcp, hpd]⟩

theorem cpuStep_unknown (acc : CPUSpanSet) (s : ThreadSpan) (h : spanKnown s = false) :
    cpuStep acc s = acc := by
  unfold cpuStep
  unfold spanKnown at h
  cases hcp : s.cpu with
  | none => rfl
  | some cp =>
    cases hpd : s.pid with
    | none => rfl
    | some pd => rw [hcp, hpd] at h; simp at h

theorem foldl_cpuStep_spans (spans : List ThreadSpan) :
    ∀ acc : CPUSpanSet,
      (spans.foldl cpuStep acc).spans = acc.spans ++ spans.filter spanKnown := by
  induction spans with
  | nil => intro acc; simp
  | cons s rest ih =>
    intro acc
    by_cases h : spanKnown s = true
    · obtain ⟨cp, pd, -, -, hstep⟩ := cpuStep_known acc s h
      rw [List.foldl_cons, hstep, ih, List.filter_cons_of_pos h]
      simp
    · have h' : spanKnown s = false := by simpa using h
      rw [List.foldl_cons, cpuStep_unknown acc s h', ih,
        List.filter_cons_of_neg (by simp [h'])]

theorem foldl_cpuStep_cpus (spans : List ThreadSpan) :
    ∀ (acc : CPUSpanSet) (x : Int),
      (x ∈ (spans.foldl cpuStep acc).cpus
        ↔ x ∈ acc.cpus ∨ ∃ s ∈ spans, spanKnown s = true ∧ s.cpu = some x) := by
  induction spans with
  | nil => intro acc x; simp
  | cons s rest ih =>
    intro acc x
    by_cases h : spanKnown s = true
    · obtain ⟨cp, pd, hcp, -, hstep⟩ := cpuStep_known acc s h
      rw [List.foldl_cons, hstep, ih]
      simp only [insertNew_mem, List.mem_cons]
      constructor
      · rintro ((rfl | hx) | ⟨s', hs', hk, hx⟩)
        · exact Or.inr ⟨s, Or.inl rfl, h, hcp⟩
        · exact Or.inl hx
        · exact Or.inr ⟨s', Or.inr hs', hk, hx⟩
      · rintro (hx | ⟨s', (rfl | hs'), hk, hx⟩)
        · exact Or.inl (Or.inr hx)
        · rw [hcp] at hx
          exact Or.inl (Or.inl (Option.some.inj hx).symm)
        · exact Or.inr ⟨s', hs', hk, hx⟩
    · have h' : spanKnown s = false := by simpa using h
      rw [List.foldl_cons, cpuStep_unknown acc s h', ih]
      constructor
      · rintro (hx | ⟨s', hs', hk, hx⟩)
        · exact Or.inl hx
        · exact Or.inr ⟨s', List.mem_cons_of_mem s hs', hk, hx⟩
      · rintro (hx | ⟨s', hs', hk, hx⟩)
        · exact Or.inl hx
        · rcases List.mem_cons.mp hs' with rfl | hs''
          · rw [h'] at hk; cases hk
          · exact Or.inr ⟨s', hs'', hk, hx⟩

theorem foldl_cpuStep_pids (spans : List ThreadSpan) :
    ∀ (acc : CPUSpanSet) (x : Int),
      (x ∈ (spans.foldl cpuStep acc).pids
        ↔ x ∈ acc.pids ∨ ∃ s ∈ spans, spanKnown s = true ∧ s.pid = some x) := by
  induction spans with
  | nil => intro acc x; simp
  | cons s rest ih =>
    intro acc x
    by_cases h : spanKnown s = true
    · obtain ⟨cp, pd, -, hpd, hstep⟩ := cpuStep_known acc s h
      rw [List.foldl_cons, hstep, ih]
      simp only [insertNew_mem, List.mem_cons]
      constructor
      · rintro ((rfl | hx) | ⟨s', hs', hk, hx⟩)
        · exact Or.inr ⟨s, Or.inl rfl, h, hpd⟩
        · exact Or.inl hx
        · exact Or.inr ⟨s', Or.inr hs', hk, hx⟩
      · rintro (hx | ⟨s', (rfl | hs'), hk, hx⟩)
        · exact Or.inl (Or.inr hx)
        · rw [hpd] at hx
          exact Or.inl (Or.inl (Option.some.inj hx).symm)
        · exact Or.inr ⟨s', hs', hk, hx⟩
    · have h' : spanKnown s = false := by simpa using h
      rw [List.foldl_cons, cpuStep_unknown acc s h', ih]
      constructor
      · rintro (hx | ⟨s', hs', hk, hx⟩)
        · exact Or.inl hx
        · exact Or.inr ⟨s', List.mem_cons_of_mem s hs', hk, hx⟩
      · rintro (hx | ⟨s', hs', hk, hx⟩)
        · exact Or.inl hx
        · rcases List.mem_cons.mp hs' with rfl | hs''
          · rw [h'] at hk; cases hk
          · exact Or.inr ⟨s', hs'', hk, hx⟩

theorem foldl_cpuStep_cpus_nodup (spans : List ThreadSpan) :
    ∀ acc : CPUSpanSet, acc.cpus.Nodup → (spans.foldl cpuStep acc).cpus.Nodup := by
  induction spans with
  | nil => intro acc h; exact h
  | cons s rest ih =>
    intro acc h
    by_cases hk : spanKnown s = true
    · obtain ⟨cp, pd, -, -, hstep⟩ := cpuStep_known acc s hk
      rw [List.foldl_cons, hstep]
      exact ih _ (insertNew_nodup cp acc.cpus h)
    · have h' : spanKnown s = false := by simpa using hk
      rw [List.foldl_cons, cpuStep_unknown acc s h']
      exact ih acc h

theorem buildSpansByCPU_spans (spans : List ThreadSpan) :
    (buildSpansByCPU spans).spans = spans.filter spanKnown :=
  foldl_cpuStep_spans spans ⟨[], [], []⟩

theorem buildSpansByCPU_cpus (spans : List ThreadSpan) (x : Int) :
    x ∈ (buildSpansByCPU spans).cpus
      ↔ ∃ s ∈ spans, spanKnown s = true ∧ s.cpu = some x := by
  rw [buildSpansByCPU, foldl_cpuStep_cpus]
  simp

theorem buildSpansByCPU_pids (spans : List ThreadSpan) (x : Int) :
    x ∈ (buildSpansByCPU spans).pids
      ↔ ∃ s ∈ spans, spanKnown s = true ∧ s.pid = some x := by
  rw [buildSpansByCPU, foldl_cpuStep_pids]
  simp

theorem newCollection_cpu_projection (n : Bool)
    (loader : TraceEvent → List ThreadTransition)
    (oracle : ThreadTransition → TransitionOutcome)
    (spanizer : List ThreadTransition → Int → List ThreadSpan)
    (strings : List String) (events : List TraceEvent) (c : Collection)
    (hok : NewCollection n loader oracle spanizer strings events = .ok c) :
    c.addedSpans = c.spansByPID.filter spanKnown
      ∧ (∀ x, x ∈ c.cpus ↔ ∃ s ∈ c.addedSpans, s.cpu = some x)
      ∧ (∀ x, x ∈ c.pids ↔ ∃ s ∈ c.addedSpans, s.pid = some x)
      ∧ c.cpus.Nodup := by
  obtain ⟨tss, -, hc⟩ := newCollection_ok_inv n loader oracle spanizer strings events c hok
  subst hc
  simp only [finishCollection]
  refine ⟨buildSpansByCPU_spans _, fun x => ?_, fun x => ?_, ?_⟩
  · rw [buildSpansByCPU_cpus, buildSpansByCPU_spans]
    constructor
    · rintro ⟨s, hs, hk, hx⟩
      exact ⟨s, List.mem_filter.mpr ⟨hs, hk⟩, hx⟩
    · rintro ⟨s, hs, hx⟩
      obtain ⟨hs', hk⟩ := List.mem_filter.mp hs
      exact ⟨s, hs', hk, hx⟩
  · rw [buildSpansByCPU_pids, buildSpansByCPU_spans]
    constructor
    · rintro ⟨s, hs, hk, hx⟩
      exact ⟨s, List.mem_filter.mpr ⟨hs, hk⟩, hx⟩
    · rintro ⟨s, hs, hx⟩
      obtain ⟨hs', hk⟩ := List.mem_filter.mp hs
      exact ⟨s, hs', hk, hx⟩
  · exact foldl_cpuStep_cpus_nodup _ ⟨[], [], []⟩ List.nodup_nil

/-- C7: after construction every span stored in the per-CPU running,
sleeping, and waiting indexes has a known CPU and PID; spans whose CPU or
PID remained unknown are excluded from CPU projection but retained in the
per-PID span list; and the cached CPU and PID sets contain exactly the CPUs
and PIDs of the projected spans. -/
theorem cpu_projection_known_spans (n : Bool)
    (loader : TraceEvent → List ThreadTransition)
    (oracle : ThreadTransition → TransitionOutcome)
    (spanizer : List ThreadTransition → Int → List ThreadSpan)
    (strings : List String) (events : List TraceEvent) (c : Collection)
    (hok : NewCollection n loader oracle spanizer strings events = .ok c) :
    (∀ cp s, s ∈ runningSpansOn c cp ++ sleepingSpansOn c cp ++ waitingSpansOn c cp →
        s.cpu = some cp ∧ s.pid.isSome = true)
      ∧ (∀ s ∈ c.spansByPID, spanKnown s = false →
          s ∉ c.addedSpans ∧ (∀ cp, s ∉ runningSpansOn c cp
            ∧ s ∉ sleepingSpansOn c cp ∧ s ∉ waitingSpansOn c cp))
      ∧ c.addedSpans = c.spansByPID.filter spanKnown
      ∧ (∀ x, x ∈ c.cpus ↔ ∃ s ∈ c.addedSpans, s.cpu = some x)
      ∧ (∀ x, x ∈ c.pids ↔ ∃ s ∈ c.addedSpans, s.pid = some x) := by
  obtain ⟨hadded, hcpus, hpids, -⟩ :=
    newCollection_cpu_projection n loader oracle spanizer strings events c hok
  have hknown : ∀ s ∈ c.addedSpans, spanKnown s = true := by
    intro s hs
    exact (List.mem_filter.mp (hadded ▸ hs)).2
  have hindex : ∀ cp s, s ∈ runningSpansOn c cp ++ sleepingSpansOn c cp
      ++ waitingSpansOn c cp → s ∈ c.addedSpans ∧ s.cpu = some cp := by
    intro cp s hs
    rcases List.mem_append.mp hs with hs' | hs'
    · rcases List.mem_append.mp hs' with hs'' | hs''
      · obtain ⟨hmem, hp⟩ := List.mem_filter.mp hs''
        simp only [Bool.and_eq_true, beq_iff_eq] at hp
        exact ⟨hmem, hp.1⟩
      · obtain ⟨hmem, hp⟩ := List.mem_filter.mp hs''
        simp only [Bool.and_eq_true, beq_iff_eq] at hp
        exact ⟨hmem, hp.1⟩
    · obtain ⟨hmem, hp⟩ := List.mem_filter.mp hs'
      simp only [Bool.and_eq_true, beq_iff_eq] at hp
      exact ⟨hmem, hp.1⟩
  refine ⟨?_, ?_, hadded, hcpus, hpids⟩
  · intro cp s hs
    obtain ⟨hmem, hcp⟩ := hindex cp s hs
    have hk := hknown s hmem
    exact ⟨hcp, (Bool.and_eq_true_iff.mp hk).2⟩
  · intro s hs hk
    have hnot : s ∉ c.addedSpans := by
      intro hmem
      rw [hknown s hmem] at hk
      cases hk
    refine ⟨hnot, fun cp => ?_⟩
    refine ⟨fun hmem => ?_, fun hmem => ?_, fun hmem => ?_⟩
    · exact hnot (List.mem_filter.mp hmem).1
    · exact hnot (List.mem_filter.mp hmem).1
    · exact hnot (List.mem_filter.mp hmem).1

/-! ### Lemmas about dropped-event bookkeeping -/

theorem bumpCount_keys_mem (m : List (Nat × Nat)) (j k : Nat) :
    k ∈ (bumpCount m j).map Prod.fst ↔ k = j ∨ k ∈ m.map Prod.fst := by
  induction m with
  | nil => simp [bumpCount]
  | cons p rest ih =>
    obtain ⟨k', c⟩ := p
    by_cases h : k' = j
    · subst h
      simp [bumpCount, or_assoc, or_comm (a := k = k')]
    · simp only [bumpCount, if_neg h, List.map_cons, List.mem_cons, ih]
      tauto

theorem bumpCount_keys_nodup (m : List (Nat × Nat)) (j : Nat)
    (h : (m.map Prod.fst).Nodup) : ((bumpCount m j).map Prod.fst).Nodup := by
  induction m with
  | nil => simp [bumpCount]
  | cons p rest ih =>
    obtain ⟨k', c⟩ := p
    simp only [List.map_cons, List.nodup_cons] at h
    by_cases hj : k' = j
    · subst hj
      simpa [bumpCount, List.nodup_cons] using h
    · simp only [bumpCount, if_neg hj, List.map_cons, List.nodup_cons]
      refine ⟨fun hmem => ?_, ih h.2⟩
      rcases (bumpCount_keys_mem rest j k').mp hmem with rfl | hmem'
      · exact hj rfl
      · exact h.1 hmem'

theorem addTransition_keys (oracle : ThreadTransition → TransitionOutcome)
    (tss : ThreadSpanSet) (tt : ThreadTransition) (k : Nat)
    (h : k ∈ droppedKeys (addTransition oracle tss tt)) :
    k ∈ droppedKeys tss ∨ k = tt.eventIndex := by
  unfold addTransition at h
  cases ho : oracle tt with
  | keep => rw [ho] at h; exact Or.inl h
  | insertSynthetic => rw [ho] at h; exact Or.inl h
  | dropSelf =>
    rw [ho] at h
    unfold droppedKeys at h ⊢
    rcases (bumpCount_keys_mem tss.droppedEventCountsByID tt.eventIndex k).mp h with rfl | h'
    · exact Or.inr rfl
    · exact Or.inl h'

theorem addTransition_keys_nodup (oracle : ThreadTransition → TransitionOutcome)
    (tss : ThreadSpanSet) (tt : ThreadTransition)
    (h : (droppedKeys tss).Nodup) :
    (droppedKeys (addTransition oracle tss tt)).Nodup := by
  unfold addTransition
  cases ho : oracle tt with
  | keep => exact h
  | insertSynthetic => exact h
  | dropSelf => exact bumpCount_keys_nodup tss.droppedEventCountsByID tt.eventIndex h

theorem foldl_addTransition_keys (oracle : ThreadTransition → TransitionOutcome)
    (tts : List ThreadTransition) :
    ∀ (tss : ThreadSpanSet) (k : Nat),
      k ∈ droppedKeys (tts.foldl (addTransition oracle) tss) →
      k ∈ droppedKeys tss ∨ ∃ tt ∈ tts, tt.eventIndex = k := by
  induction tts with
  | nil => intro tss k h; exact Or.inl h
  | cons tt rest ih =>
    intro tss k h
    rcases ih (addTransition oracle tss tt) k h with h' | ⟨tt', htt', rfl⟩
    · rcases addTransition_keys oracle tss tt k h' with h'' | rfl
      · exact Or.inl h''
      · exact Or.inr ⟨tt, List.mem_cons_self tt rest, rfl⟩
    · exact Or.inr ⟨tt', List.mem_cons_of_mem tt htt', rfl⟩

theorem foldl_addTransition_keys_nodup (oracle : ThreadTransition → TransitionOutcome)
    (tts : List ThreadTransition) :
    ∀ tss : ThreadSpanSet, (droppedKeys tss).Nodup →
      (droppedKeys (tts.foldl (addTransition oracle) tss)).Nodup := by
  induction tts with
  | nil => intro tss h; exact h
  | cons tt rest ih =>
    intro tss h
    exact ih _ (addTransition_keys_nodup oracle tss tt h)

theorem buildStep_dropped_keys (n : Bool) (loader : TraceEvent → List ThreadTransition)
    (oracle : ThreadTransition → TransitionOutcome) (s : BuildState) (ev : TraceEvent)
    (k : Nat) (h : k ∈ droppedKeysOpt (buildStep n loader oracle s ev).ts) :
    k ∈ droppedKeysOpt s.ts
      ∨ (usableEvent loader ev = true ∧ ∃ tt ∈ loader ev, tt.eventIndex = k) := by
  by_cases hu : usableEvent loader ev = true
  · obtain ⟨hc, hne⟩ := (usableEvent_iff loader ev).mp hu
    have he : (loader ev).isEmpty = false := by simpa [List.isEmpty_iff] using hne
    have hts : ∃ off : Int, (buildStep n loader oracle s ev).ts
        = some (((loader ev).map
            (fun tt => { tt with timestamp := tt.timestamp - off })).foldl
          (addTransition oracle) (s.ts.getD newThreadSpanSet)) := by
      cases hoff : s.normalizationOffset with
      | none =>
        exact ⟨if n then ev.timestamp else 0, by simp [buildStep, hc, he, hoff]⟩
      | some x =>
        exact ⟨x, by simp [buildStep, hc, he, hoff]⟩
    obtain ⟨off, hts⟩ := hts
    rw [hts] at h
    rcases foldl_addTransition_keys oracle _ _ k h with h' | ⟨tt', htt', rfl⟩
    · cases hsts : s.ts with
      | none => rw [hsts] at h'; simp [newThreadSpanSet, droppedKeys] at h'
      | some tss0 => rw [hsts] at h'; exact Or.inl (by simpa [droppedKeysOpt, hsts] using h')
    · obtain ⟨tt0, htt0, rfl⟩ := List.mem_map.mp htt'
      exact Or.inr ⟨hu, tt0, htt0, rfl⟩
  · rw [buildStep_not_usable n loader oracle s ev (by simpa using hu)] at h
    exact Or.inl h

theorem buildStep_dropped_keys_nodup (n : Bool)
    (loader : TraceEvent → List ThreadTransition)
    (oracle : ThreadTransition → TransitionOutcome) (s : BuildState) (ev : TraceEvent)
    (h : (droppedKeysOpt s.ts).Nodup) :
    (droppedKeysOpt (buildStep n loader oracle s ev).ts).Nodup := by
  by_cases hu : usableEvent loader ev = true
  · obtain ⟨hc, hne⟩ := (usableEvent_iff loader ev).mp hu
    have he : (loader ev).isEmpty = false := by simpa [List.isEmpty_iff] using hne
    have hbase : (droppedKeys (s.ts.getD newThreadSpanSet)).Nodup := by
      cases hsts : s.ts with
      | none => simp [newThreadSpanSet, droppedKeys]
      | some tss0 => simpa [droppedKeysOpt, hsts] using h
    cases hoff : s.normalizationOffset with
    | none =>
      simpa [buildStep, hc, he, hoff, droppedKeysOpt] using
        foldl_addTransition_keys_nodup oracle _ _ hbase
    | some x =>
      simpa [buildStep, hc, he, hoff, droppedKeysOpt] using
        foldl_addTransition_keys_nodup oracle _ _ hbase
  · rw [buildStep_not_usable n loader oracle s ev (by simpa using hu)]
    exact h

theorem foldl_buildStep_dropped_keys (n : Bool)
    (loader : TraceEvent → List ThreadTransition)
    (oracle : ThreadTransition → TransitionOutcome) (events : List TraceEvent) :
    ∀ (s : BuildState) (k : Nat),
      k ∈ droppedKeysOpt (events.foldl (buildStep n loader oracle) s).ts →
      k ∈ droppedKeysOpt s.ts
        ∨ ∃ ev ∈ events, usableEvent loader ev = true
            ∧ ∃ tt ∈ loader ev, tt.eventIndex = k := by
  induction events with
  | nil => intro s k h; exact Or.inl h
  | cons ev rest ih =>
    intro s k h
    rcases ih (buildStep n loader oracle s ev) k h with h' | ⟨ev', hev', hu, htt⟩
    · rcases buildStep_dropped_keys n loader oracle s ev k h' with h'' | ⟨hu, htt⟩
      · exact Or.inl h''
      · exact Or.inr ⟨ev, List.mem_cons_self ev rest, hu, htt⟩
    · exact Or.inr ⟨ev', List.mem_cons_of_mem ev hev', hu, htt⟩

theorem foldl_buildStep_dropped_keys_nodup (n : Bool)
    (loader : TraceEvent → List ThreadTransition)
    (oracle : ThreadTransition → TransitionOutcome) (events : List TraceEvent) :
    ∀ s : BuildState, (droppedKeysOpt s.ts).Nodup →
      (droppedKeysOpt (events.foldl (buildStep n loader oracle) s).ts).Nodup := by
  induction events with
  | nil => intro s h; exact h
  | cons ev rest ih =>
    intro s h
    exact ih _ (buildStep_dropped_keys_nodup n loader oracle s ev h)

/-- C8: `DroppedEventIDs()` is sorted strictly ascending (ascending with no
duplicates) and contains exactly the keys of the dropped-event count map,
each of which is the index of an event that was actually observed by
inference (non-clipped and transition-producing).  The hypothesis `hidx`
states that the event loaders stamp each transition with the index of the
event it was derived from, as the sched loaders do. -/
theorem droppedEventIDs_spec (n : Bool) (loader : TraceEvent → List ThreadTransition)
    (oracle : ThreadTransition → TransitionOutcome)
    (spanizer : List ThreadTransition → Int → List ThreadSpan)
    (strings : List String) (events : List TraceEvent) (c : Collection)
    (hidx : ∀ ev tt, tt ∈ loader ev → tt.eventIndex = ev.index)
    (hok : NewCollection n loader oracle spanizer strings events = .ok c) :
    List.Sorted (· < ·) (DroppedEventIDs c)
      ∧ (∀ k, k ∈ DroppedEventIDs c ↔ k ∈ c.droppedEventCountsByID.map Prod.fst)
      ∧ (∀ k ∈ DroppedEventIDs c, ∃ ev ∈ events,
          ev.clipped = false ∧ loader ev ≠ [] ∧ ev.index = k) := by
  obtain ⟨tss, hts, hc⟩ := newCollection_ok_inv n loader oracle spanizer strings events c hok
  have hdrop : c.droppedEventCountsByID = tss.droppedEventCountsByID := by
    rw [hc]; simp only [finishCollection]
  have hkeys : c.droppedEventCountsByID.map Prod.fst = droppedKeys tss := by
    rw [hdrop]; rfl
  have hloop : events.foldl (buildStep n loader oracle) initialBuildState
      = buildSpansByPIDLoop n loader oracle events := rfl
  have hnodup : (droppedKeys tss).Nodup := by
    have h0 := foldl_buildStep_dropped_keys_nodup n loader oracle events
      initialBuildState (by simp [initialBuildState, droppedKeysOpt])
    rw [hloop, hts] at h0
    simpa [droppedKeysOpt] using h0
  have hperm := List.perm_insertionSort (· ≤ ·) (c.droppedEventCountsByID.map Prod.fst)
  have hmem : ∀ k, k ∈ DroppedEventIDs c ↔ k ∈ c.droppedEventCountsByID.map Prod.fst := by
    intro k
    unfold DroppedEventIDs
    exact hperm.mem_iff
  refine ⟨?_, hmem, ?_⟩
  · have hsorted := List.sorted_insertionSort (· ≤ ·) (c.droppedEventCountsByID.map Prod.fst)
    have hnd : (DroppedEventIDs c).Nodup := by
      unfold DroppedEventIDs
      exact hperm.nodup_iff.mpr (hkeys ▸ hnodup)
    exact List.Sorted.lt_of_le hsorted hnd
  · intro k hk
    have hk' : k ∈ droppedKeys tss := hkeys ▸ (hmem k).mp hk
    have h1 := foldl_buildStep_dropped_keys n loader oracle events initialBuildState k
      (by rw [hloop, hts]; simpa [droppedKeysOpt] using hk')
    rcases h1 with h0 | ⟨ev, hev, hu, tt, htt, hteq⟩
    · simp [initialBuildState, droppedKeysOpt] at h0
    · obtain ⟨hcl, hne⟩ := (usableEvent_iff loader ev).mp hu
      exact ⟨ev, hev, hcl, hne, by rw [← hidx ev tt htt]; exact hteq⟩

/-- C9: `LookupCommand` on the reserved ID 0 (`UNKNOWN_COMMAND`) returns
the literal `"<unknown>"` without error; on any other ID it returns the
stored string when the ID is present in the string table and errors if and
only if the ID has no valid lookup. -/
theorem lookupCommand_spec (c : Collection) (id : Nat) :
    LookupCommand c 0 = .ok "<unknown>"
      ∧ (id ≠ 0 → ∀ s, stringByID c.stringTable id = .ok s → LookupCommand c id = .ok s)
      ∧ (id ≠ 0 → ((∃ e, LookupCommand c id = .error e)
          ↔ c.stringTable.get? id = none)) := by
  refine ⟨rfl, ?_, ?_⟩
  · intro hid s hs
    unfold LookupCommand
    rw [if_neg (by simpa [UnknownCommand] using hid), hs]
  · intro hid
    cases hg : c.stringTable.get? id with
    | some s =>
      have hg' : c.stringTable[id]? = some s := by
        simpa [List.get?_eq_getElem?] using hg
      have hv : LookupCommand c id = .ok s := by
        unfold LookupCommand
        rw [if_neg (by simpa [UnknownCommand] using hid)]
        simp [stringByID, hg']
      constructor
      · rintro ⟨e, he⟩
        rw [hv] at he
        cases he
      · intro h
        cases h
    | none =>
      have hg' : c.stringTable[id]? = none := by
        simpa [List.get?_eq_getElem?] using hg
      have hv : LookupCommand c id
          = .error ("failed to find command for id " ++ toString id) := by
        unfold LookupCommand
        rw [if_neg (by simpa [UnknownCommand] using hid)]
        simp [stringByID, hg']
      exact ⟨fun _ => rfl, fun _ => ⟨_, hv⟩⟩

/-- C10: `ExpandCPUs` returns every non-empty argument unchanged
(unsorted, duplicates preserved), and for the empty argument returns all
CPUs observed in the collection in strictly increasing order. -/
theorem expandCPUs_spec (n : Bool) (loader : TraceEvent → List ThreadTransition)
    (oracle : ThreadTransition → TransitionOutcome)
    (spanizer : List ThreadTransition → Int → List ThreadSpan)
    (strings : List String) (events : List TraceEvent) (c : Collection)
    (hok : NewCollection n loader oracle spanizer strings events = .ok c)
    (cpus : List Int) :
    (cpus ≠ [] → ExpandCPUs c cpus = cpus)
      ∧ List.Sorted (· < ·) (ExpandCPUs c [])
      ∧ (∀ x, x ∈ ExpandCPUs c [] ↔ x ∈ c.CPUs) := by
  obtain ⟨-, -, -, hnodup⟩ :=
    newCollection_cpu_projection n loader oracle spanizer strings events c hok
  have hE : ExpandCPUs c [] = List.insertionSort (· ≤ ·) c.CPUs := rfl
  refine ⟨?_, ?_, ?_⟩
  · intro h
    unfold ExpandCPUs
    rw [if_neg (by simpa [List.isEmpty_iff] using h)]
  · rw [hE]
    exact List.Sorted.lt_of_le (List.sorted_insertionSort _ _)
      ((List.perm_insertionSort _ _).nodup_iff.mpr hnodup)
  · intro x
    rw [hE]
    exact (List.perm_insertionSort _ _).mem_iff

/-! ### Lemmas about the converter's format-file loop -/

theorem nonHeaderCount_add_headers (paths : List String) :
    nonHeaderCount paths
        + (paths.filter (fun p => hasSuffix p "header_page")).length
      = paths.length := by
  induction paths with
  | nil => rfl
  | cons p rest ih =>
    unfold nonHeaderCount at ih ⊢
    cases hp : hasSuffix p "header_page"
    · simp only [List.filter_cons, hp, Bool.not_false, if_true, Bool.false_eq_true,
        if_false, List.length_cons]
      omega
    · simp only [List.filter_cons, hp, Bool.not_true, if_true, Bool.false_eq_true,
        if_false, List.length_cons]
      omega

theorem readLoop_success (readFile : String → Option String)
    (hread : ∀ p, ∃ c, readFile p = some c ∧ c ≠ "") (cap : Nat) :
    ∀ (paths : List String) (i : Nat) (hdr : String) (files : List String),
      i + nonHeaderCount paths ≤ cap →
      (hdr ≠ "" ∨ ∃ p ∈ paths, hasSuffix p "header_page" = true) →
      ∃ hdr' files', readLoop readFile cap paths i hdr files = .done hdr' files'
        ∧ hdr' ≠ "" := by
  intro paths
  induction paths with
  | nil =>
    intro i hdr files hcap hhdr
    refine ⟨hdr, files, rfl, ?_⟩
    rcases hhdr with h | ⟨p, hp, -⟩
    · exact h
    · cases hp
  | cons p rest ih =>
    intro i hdr files hcap hhdr
    obtain ⟨cbuf, hcb, hcne⟩ := hread p
    by_cases hp : hasSuffix p "header_page" = true
    · have hcap' : i + nonHeaderCount rest ≤ cap := by
        unfold nonHeaderCount at hcap ⊢
        rw [List.filter_cons_of_neg (by simp [hp])] at hcap
        exact hcap
      obtain ⟨hdr', files', heq, hne⟩ := ih i cbuf files hcap' (Or.inl hcne)
      refine ⟨hdr', files', ?_, hne⟩
      simp only [readLoop]
      rw [hcb]
      simp only [if_pos hp]
      exact heq
    · have hp' : hasSuffix p "header_page" = false := by simpa using hp
      have hcnt : nonHeaderCount (p :: rest) = nonHeaderCount rest + 1 := by
        unfold nonHeaderCount
        rw [List.filter_cons_of_pos (by simp [hp'])]
        simp
      have hlt : i < cap := by omega
      have hcap' : (i + 1) + nonHeaderCount rest ≤ cap := by omega
      have hhdr' : hdr ≠ "" ∨ ∃ q ∈ rest, hasSuffix q "header_page" = true := by
        rcases hhdr with h | ⟨q, hq, hqe⟩
        · exact Or.inl h
        · rcases List.mem_cons.mp hq with rfl | hq'
          · rw [hp'] at hqe; cases hqe
          · exact Or.inr ⟨q, hq', hqe⟩
      obtain ⟨hdr', files', heq, hne⟩ := ih (i + 1) hdr (files.set i cbuf) hcap' hhdr'
      refine ⟨hdr', files', ?_, hne⟩
      simp only [readLoop]
      rw [hcb]
      simp only [hp', if_pos hlt, Bool.false_eq_true, if_false]
      exact heq

theorem readLoop_no_header (readFile : String → Option String) (cap : Nat) :
    ∀ (paths : List String) (i : Nat) (hdr : String) (files : List String),
      (∀ p ∈ paths, hasSuffix p "header_page" = false) →
      ∀ hdr' files', readLoop readFile cap paths i hdr files = .done hdr' files' →
        hdr' = hdr := by
  intro paths
  induction paths with
  | nil =>
    intro i hdr files hall hdr' files' h
    cases h
    rfl
  | cons p rest ih =>
    intro i hdr files hall hdr' files' h
    have hp' : hasSuffix p "header_page" = false := hall p (List.mem_cons_self p rest)
    cases hrf : readFile p with
    | none => simp [readLoop, hrf] at h
    | some buf =>
      simp only [readLoop, hrf, hp', Bool.false_eq_true, if_false] at h
      by_cases hi : i < cap
      · rw [if_pos hi] at h
        exact ih (i + 1) hdr (files.set i buf)
          (fun q hq => hall q (List.mem_cons_of_mem p hq)) hdr' files' h
      · rw [if_neg hi] at h
        cases h

/-- C5 counterexample: passing only the `header_page` path in
`--format_files`, with `--output_path` set and every file readable, makes
the converter exit non-zero instead of proceeding: it demands at least two
format-file paths. -/
theorem single_header_page_rejected :
    converterMain ["dir/header_page"] "out" (fun _ => some "content")
      = .exit "format_files is required. Must pass the path to at least one format file and the header_page format file." := by
  rfl

/-- C5 (amended): the converter requires at least two non-empty
format-file paths, one of which ends in `header_page`: when `--format_files`
lists a `header_page` path plus at least one other format file,
`--output_path` is set, and every listed file is readable with non-empty
content, validation passes and parsing proceeds; when fewer than two paths
are listed, no listed path ends in `header_page`, or `--output_path` is
missing, it exits non-zero. -/
theorem converter_flag_validation (paths : List String) (out : String)
    (readFile : String → Option String)
    (hread : ∀ p, ∃ c, readFile p = some c ∧ c ≠ "") :
    (2 ≤ paths.length → out ≠ "" →
        (∃ p ∈ paths, hasSuffix p "header_page" = true) →
        ∃ h f, converterMain paths out readFile = .proceed h f)
      ∧ ((∀ p ∈ paths, hasSuffix p "header_page" = false) →
          ∀ h f, converterMain paths out readFile ≠ .proceed h f)
      ∧ (out = "" → ∀ h f, converterMain paths out readFile ≠ .proceed h f)
      ∧ (paths.length < 2 →
          ∀ h f, converterMain paths out readFile ≠ .proceed h f) := by
  refine ⟨?_, ?_, ?_, ?_⟩
  · rintro hlen hout ⟨p, hp, hpe⟩
    have hhc : 1 ≤ (paths.filter
        (fun q => hasSuffix q "header_page")).length := by
      have : p ∈ paths.filter
          (fun q => hasSuffix q "header_page") := List.mem_filter.mpr ⟨hp, hpe⟩
      exact List.length_pos_of_mem this
    have hsum := nonHeaderCount_add_headers paths
    have hcap : 0 + nonHeaderCount paths
        ≤ paths.length - 1 := by omega
    obtain ⟨hdr', files', heq, hne⟩ :=
      readLoop_success readFile hread (paths.length - 1)
        paths 0 ""
        (List.replicate (paths.length - 1) "")
        hcap (Or.inr ⟨p, hp, hpe⟩)
    refine ⟨hdr', files', ?_⟩
    simp only [converterMain]
    rw [if_neg (by omega), if_neg hout, heq]
    simp [hne]
  · intro hall h f hcontra
    simp only [converterMain] at hcontra
    split at hcontra
    · cases hcontra
    · split at hcontra
      · cases hcontra
      · split at hcontra
        · cases hcontra
        · cases hcontra
        · rename_i hdr' files' heq
          split at hcontra
          · cases hcontra
          · rename_i hne
            exact hne (readLoop_no_header readFile _ _ 0 "" _ hall hdr' files' heq)
  · intro hout h f hcontra
    subst hout
    simp only [converterMain] at hcontra
    split at hcontra
    · cases hcontra
    · simp at hcontra
  · intro hlen h f hcontra
    simp only [converterMain] at hcontra
    rw [if_pos hlen] at hcontra
    cases hcontra

/-! ### Witnesses -/

theorem exLoader_stamps_index :
    ∀ ev tt, tt ∈ exLoader ev → tt.eventIndex = ev.index := by
  intro ev tt htt
  unfold exLoader at htt
  split at htt
  · rcases List.mem_singleton.mp htt with rfl
    rfl
  · cases htt

/-- Witness for C2 at a concrete input: a one-event, all-clipped event set
fails with the empty-collection error. -/
theorem newCollection_ok_iff_usable_witness :
    NewCollection false exLoader exKeepOracle exSpanizer [] [exClippedEvent]
      = .error "no usable events in collection" :=
  (newCollection_ok_iff_usable false exLoader exKeepOracle exSpanizer []
    [exClippedEvent]).2.2 (by decide)

/-- Witness for C3 at a concrete input: the collection built from
`exEvents` with normalization on. -/
theorem normalizationOffset_spec_witness :
    ((true : Bool) = false → exCollection.NormalizationOffset = 0)
      ∧ ((true : Bool) = true →
          ∃ ev, exEvents.find? (usableEvent exLoader) = some ev
            ∧ exCollection.NormalizationOffset = ev.timestamp
            ∧ ∃ i, exEvents.get? i = some ev
                ∧ (GetRawEvents exCollection).get? i = some { ev with timestamp := 0 }) :=
  normalizationOffset_spec true exLoader exKeepOracle exSpanizer [] exEvents
    exCollection (by rfl)

/-- Witness for C4 at a concrete input: a clipped event before a usable
switch event. -/
theorem clipped_event_skipped_witness :
    buildSpansByPIDLoop false exLoader exKeepOracle ([] ++ exClippedEvent :: [exSwitchEvent])
        = buildSpansByPIDLoop false exLoader exKeepOracle ([] ++ [exSwitchEvent])
      ∧ ∀ c, NewCollection false exLoader exKeepOracle exSpanizer []
            ([] ++ exClippedEvent :: [exSwitchEvent]) = .ok c →
          (GetRawEvents c).get? (List.length ([] : List TraceEvent))
            = some { exClippedEvent with
                timestamp := exClippedEvent.timestamp - c.NormalizationOffset } :=
  clipped_event_skipped false exLoader exKeepOracle exSpanizer [] [] [exSwitchEvent]
    exClippedEvent (by decide)

/-- Witness for C5 at a concrete input: a `header_page` path plus one event
format file, with the output path set and readable non-empty files,
proceeds. -/
theorem converter_flag_validation_witness :
    ∃ h f, converterMain ["evt", "dir/header_page"] "out" (fun _ => some "x")
      = .proceed h f :=
  (converter_flag_validation ["evt", "dir/header_page"] "out" (fun _ => some "x")
      (fun _ => ⟨"x", rfl, by decide⟩)).1 (by decide) (by decide) (by decide)

/-- Witness for C6 at a concrete input: the collection built from
`exEvents` with normalization off. -/
theorem getRawEvents_normalized_witness :
    (∀ i ev, exCollectionRaw.events.get? i = some ev →
        (GetRawEvents exCollectionRaw).get? i
          = some { ev with timestamp := ev.timestamp - exCollectionRaw.NormalizationOffset })
      ∧ ((false : Bool) = false → exCollectionRaw.NormalizationOffset = 0) :=
  getRawEvents_normalized false exLoader exKeepOracle exSpanizer [] exEvents
    exCollectionRaw (by rfl)

/-- Witness for C7 at a concrete input: a collection whose span finalizer
leaves one span's CPU unknown. -/
theorem cpu_projection_known_spans_witness :
    (∀ cp s, s ∈ runningSpansOn exCollectionPartial cp
          ++ sleepingSpansOn exCollectionPartial cp
          ++ waitingSpansOn exCollectionPartial cp →
        s.cpu = some cp ∧ s.pid.isSome = true)
      ∧ (∀ s ∈ exCollectionPartial.spansByPID, spanKnown s = false →
          s ∉ exCollectionPartial.addedSpans
            ∧ (∀ cp, s ∉ runningSpansOn exCollectionPartial cp
              ∧ s ∉ sleepingSpansOn exCollectionPartial cp
              ∧ s ∉ waitingSpansOn exCollectionPartial cp))
      ∧ exCollectionPartial.addedSpans
          = exCollectionPartial.spansByPID.filter spanKnown
      ∧ (∀ x, x ∈ exCollectionPartial.cpus
          ↔ ∃ s ∈ exCollectionPartial.addedSpans, s.cpu = some x)
      ∧ (∀ x, x ∈ exCollectionPartial.pids
          ↔ ∃ s ∈ exCollectionPartial.addedSpans, s.pid = some x) :=
  cpu_projection_known_spans true exLoader exKeepOracle exPartialSpanizer [] exEvents
    exCollectionPartial (by rfl)

/-- Witness for C8 at a concrete input: the always-drop oracle produces a
non-empty dropped-event map. -/
theorem droppedEventIDs_spec_witness :
    List.Sorted (· < ·) (DroppedEventIDs exCollectionDropped)
      ∧ (∀ k, k ∈ DroppedEventIDs exCollectionDropped
          ↔ k ∈ exCollectionDropped.droppedEventCountsByID.map Prod.fst)
      ∧ (∀ k ∈ DroppedEventIDs exCollectionDropped, ∃ ev ∈ exEvents,
          ev.clipped = false ∧ exLoader ev ≠ [] ∧ ev.index = k) :=
  droppedEventIDs_spec false exLoader exDropOracle exSpanizer [] exEvents
    exCollectionDropped exLoader_stamps_index (by rfl)

/-- Witness for C9 at a concrete input: a string table with three
entries. -/
theorem lookupCommand_spec_witness :
    LookupCommand exLookupCollection 0 = .ok "<unknown>"
      ∧ LookupCommand exLookupCollection 2 = .ok "two" :=
  ⟨(lookupCommand_spec exLookupCollection 2).1,
    (lookupCommand_spec exLookupCollection 2).2.1 (by decide) "two" (by rfl)⟩

/-- Witness for C10 at a concrete input: a non-empty unsorted argument and
the empty argument, on a concretely built collection. -/
theorem expandCPUs_spec_witness :
    (([3, 1] : List Int) ≠ [] → ExpandCPUs exCollection [3, 1] = [3, 1])
      ∧ List.Sorted (· < ·) (ExpandCPUs exCollection [])
      ∧ (∀ x, x ∈ ExpandCPUs exCollection [] ↔ x ∈ exCollection.CPUs) :=
  expandCPUs_spec true exLoader exKeepOracle exSpanizer [] exEvents exCollection
    (by rfl) [3, 1]
